import Mathlib

/-!
Verification development for the rusty-scout directory search tool
(src/main.rs).  The program state and operations are shallowly embedded:
Rust strings become lists of UTF-8 bytes (`Bytes`), fallible operations
(string slicing that can panic, file reads that can fail) return `Option`,
and the external collaborators (the regex crate, the `ignore` tree walker,
the file system) are inputs to the embedded functions.
-/

namespace RustyScout

/-- A Rust `str`/`String` value, as its UTF-8 byte sequence. -/
abbrev Bytes := List Nat

/-- Bytes of an ASCII string literal (code point = byte for ASCII). -/
def asciiBytes (s : String) : Bytes := s.data.map Char.toNat

/-- UTF-8 continuation byte test (0x80..=0xBF), as in Rust's
`str::is_char_boundary`: a byte `b` starts a character iff `(b as i8) >= -0x40`,
i.e. iff it is not a continuation byte. -/
def isUtf8Cont (b : Nat) : Bool := decide (128 ≤ b ∧ b < 192)

/-- Rust `str::is_char_boundary(i)`: true at 0; at `i = len`; otherwise true
iff the byte at `i` exists and is not a continuation byte.  Slicing
`s[i..]` panics exactly when this is false. -/
def isCharBoundary (s : Bytes) (i : Nat) : Bool :=
  if i = 0 then true
  else
    match s.get? i with
    | none => decide (i = s.length)
    | some b => !(isUtf8Cont b)

/-- `pat` occurs as a (byte-)substring of `s` at position `i`. -/
def occursAt (s pat : Bytes) (i : Nat) : Bool :=
  decide ((s.drop i).take pat.length = pat)

/-- Rust `str::find(&pat)`: byte index of the leftmost occurrence of `pat`
as a substring of `s` (`some 0` on the empty pattern, as in Rust). -/
def strFind : Bytes → Bytes → Option Nat
  | [], pat => if pat = [] then some 0 else none
  | b :: t, pat =>
    if (b :: t).take pat.length = pat then some 0
    else (strFind t pat).map (· + 1)

/-- The literal-mode matching loop of `FileSearcher::search_file`
(src/main.rs lines 117-124):

    let mut matches = Vec::new();
    let mut start = 0;
    while let Some(pos) = search_line[start..].find(&search_pattern) {
        let abs_pos = start + pos;
        matches.push((abs_pos, abs_pos + search_pattern.len()));
        start = abs_pos + 1;
    }

`none` models a panic of the slice `search_line[start..]` (index out of
bounds or not a character boundary). -/
def findMatchesLoop (searchLine pat : Bytes) (start : Nat) :
    Option (List (Nat × Nat)) :=
  if h : isCharBoundary searchLine start = true ∧ start ≤ searchLine.length then
    match strFind (searchLine.drop start) pat with
    | none => some []
    | some pos =>
      match findMatchesLoop searchLine pat (start + pos + 1) with
      | none => none
      | some rest => some ((start + pos, start + pos + pat.length) :: rest)
  else none
termination_by searchLine.length + 1 - start
decreasing_by
  omega

/-- The literal matcher: run the loop from `start = 0`. -/
def findLiteralMatches (searchLine pat : Bytes) : Option (List (Nat × Nat)) :=
  findMatchesLoop searchLine pat 0

/-- Modelled from Rust std `str::to_lowercase`, restricted to the code
points exercised in this development: ASCII `A`-`Z` map to `a`-`z`, and
U+0130 LATIN CAPITAL LETTER I WITH DOT ABOVE (UTF-8 bytes `C4 B0`) maps to
`"i̇"` (UTF-8 bytes `69 CC 87`), exactly as in Unicode.  All other
bytes are unchanged (no other cased character appears in this file). -/
def toLowercase : Bytes → Bytes
  | [] => []
  | 196 :: 176 :: rest => 105 :: 204 :: 135 :: toLowercase rest
  | b :: rest => (if 65 ≤ b ∧ b ≤ 90 then b + 32 else b) :: toLowercase rest

/-- Split a byte string at every newline byte (10), keeping every fragment
(a trailing newline therefore produces a trailing empty fragment). -/
def splitNl : Bytes → List Bytes
  | [] => [[]]
  | b :: rest =>
    if b = 10 then [] :: splitNl rest
    else
      match splitNl rest with
      | [] => [[b]]
      | l :: ls => (b :: l) :: ls

/-- Strip one trailing carriage return (13), as Rust `str::lines` does to
every newline-terminated fragment. -/
def stripCr (l : Bytes) : Bytes :=
  match l.getLast? with
  | some 13 => l.dropLast
  | _ => l

/-- Rust `str::lines`: fragments delimited by `\n` with a trailing `\r`
stripped from each newline-terminated fragment; a trailing empty fragment
after a final newline is not a line, and a non-terminated final fragment is
kept verbatim. -/
def rustLines (s : Bytes) : List Bytes :=
  let parts := splitNl s
  parts.dropLast.map stripCr ++
    (match parts.getLast? with
     | some [] => []
     | some l => [l]
     | none => [])

/-- A compiled regex, abstractly: the external regex engine's
`find_iter`, returning the byte spans of all matches on a line. -/
def RegexEngine : Type := Bytes → List (Nat × Nat)

/-- The `FileSearcher` struct (src/main.rs lines 62-69) without the
presentation-only fields (`results` accumulator and progress bars, which
are modelled as return values below). -/
structure FileSearcher where
  pattern : Bytes
  regex : Option RegexEngine
  ignore_case : Bool
  extensions : List String

/-- The per-line matcher inside `FileSearcher::search_file`
(src/main.rs lines 100-125): regex mode delegates to the engine; literal
mode lowercases line and pattern when `ignore_case` and runs the
repeated-substring-search loop. -/
def lineMatchSpans (s : FileSearcher) (line : Bytes) :
    Option (List (Nat × Nat)) :=
  match s.regex with
  | some re => some (re line)
  | none =>
    let searchLine := if s.ignore_case then toLowercase line else line
    let searchPattern := if s.ignore_case then toLowercase s.pattern else s.pattern
    findLiteralMatches searchLine searchPattern

/-- The `SearchResult` struct (src/main.rs lines 40-46).  The Rust field
`matches` is a reserved word in Lean and is called `spans` here (the
spec's name for it). -/
structure SearchResult where
  file_path : String
  line_number : Nat
  line : Bytes
  spans : List (Nat × Nat)
deriving DecidableEq, Repr

/-- The per-line loop of `FileSearcher::search_file` (src/main.rs lines
99-135): lines are numbered from the 0-based enumeration index plus one,
and a `SearchResult` is pushed only when the span list is non-empty.
`none` models a panic inside the matching loop. -/
def searchLinesFrom (s : FileSearcher) (path : String) :
    Nat → List Bytes → Option (List SearchResult)
  | _, [] => some []
  | i, l :: ls =>
    match lineMatchSpans s l, searchLinesFrom s path (i + 1) ls with
    | some ms, some rest =>
      some (if ms = [] then rest else ⟨path, i + 1, l, ms⟩ :: rest)
    | _, _ => none

/-- Outcome of `FileSearcher::search_file` on one file.  Rust
distinguishes two failure modes that behave very differently at the call
site: `readError` is the `Err` of `fs::read_to_string` (a value the
caller's `if let Ok` silently skips), while `panicked` is a panic of the
matching loop (not a `Result` at all — it unwinds out of the rayon task
and aborts the whole process). -/
inductive FileScan where
  | readError : FileScan
  | panicked : FileScan
  | ok : List SearchResult → FileScan
deriving DecidableEq, Repr

/-- `FileSearcher::search_file` (src/main.rs lines 95-138).  The file
system is an input: `content = none` models `fs::read_to_string` failing
(unreadable or not valid UTF-8), giving `readError`; a panic of the
matching loop gives `panicked`. -/
def search_file (s : FileSearcher) (path : String) (content : Option Bytes) :
    FileScan :=
  match content with
  | none => .readError
  | some c =>
    match searchLinesFrom s path 0 (rustLines c) with
    | none => .panicked
    | some rs => .ok rs

/-- Index of the last `.` in a character list (`none` if there is no dot). -/
def lastDotIdx : List Char → Option Nat
  | [] => none
  | c :: rest =>
    match lastDotIdx rest with
    | some i => some (i + 1)
    | none => if c = '.' then some 0 else none

/-- The file-name component of a path: the suffix after the last `/`. -/
def fileNameChars (p : List Char) : List Char :=
  (p.reverse.takeWhile (fun c => c ≠ '/')).reverse

/-- Rust `Path::extension` on a file name (std `split_file_at_dot`):
`".."` has no extension; otherwise the extension is the part after the
last dot found at index `≥ 1`, so a leading dot (as in `".gitignore"`)
never starts an extension, and a name with no dot has none. -/
def rustExtensionChars (name : List Char) : Option (List Char) :=
  if name = ['.', '.'] then none
  else
    match name with
    | [] => none
    | _ :: rest =>
      match lastDotIdx rest with
      | none => none
      | some i => some (rest.drop (i + 1))

/-- Rust `Path::extension().and_then(to_str)` for a path given as a
string (`to_str` always succeeds on our UTF-8 strings). -/
def rustExtension (path : String) : Option String :=
  (rustExtensionChars (fileNameChars path.data)).map List.asString

/-- `FileSearcher::should_search_file` (src/main.rs lines 140-149):
unconditionally true when `"*"` is among the configured extensions,
otherwise true iff the path has an extension that is a member of the
configured list (`unwrap_or(false)` excludes extension-less paths). -/
def should_search_file (s : FileSearcher) (path : String) : Bool :=
  if s.extensions.contains "*" then true
  else
    match rustExtension path with
    | some ext => s.extensions.contains ext
    | none => false

/-- Split a character list at every comma, keeping every fragment
(Rust `str::split(',')`). -/
def splitComma : List Char → List (List Char)
  | [] => [[]]
  | c :: rest =>
    if c = ',' then [] :: splitComma rest
    else
      match splitComma rest with
      | [] => [[c]]
      | l :: ls => (c :: l) :: ls

/-- Rust `str::trim`: drop whitespace from both ends. -/
def trimChars (l : List Char) : List Char :=
  ((l.dropWhile Char.isWhitespace).reverse.dropWhile Char.isWhitespace).reverse

/-- The extension-list parsing in `FileSearcher::new`:
`args.extensions.split(',').map(|s| s.trim().to_string()).collect()`. -/
def parseExtensions (s : String) : List String :=
  (splitComma s.data).map (fun l => (trimChars l).asString)

/-- The command-line arguments (src/main.rs lines 18-38), already parsed
by clap (argument parsing itself is presentation and out of scope). -/
structure Args where
  directory : String
  pattern : Bytes
  extensions : String
  regex : Bool
  ignore_case : Bool

/-- `FileSearcher::new` (src/main.rs lines 72-93).  The external regex
crate's `Regex::new` is the input `compile`; in regex mode its error is
propagated immediately (`?`), otherwise no compilation happens. -/
def fileSearcherNew (compile : Bytes → Except String RegexEngine)
    (args : Args) : Except String FileSearcher :=
  if args.regex then
    match compile args.pattern with
    | .error e => .error e
    | .ok re =>
      .ok ⟨args.pattern, some re, args.ignore_case, parseExtensions args.extensions⟩
  else
    .ok ⟨args.pattern, none, args.ignore_case, parseExtensions args.extensions⟩

/-- One entry produced by the external `ignore` tree walker: a path and
the result of `entry.file_type().map(|ft| ft.is_file())`. -/
structure WalkEntry where
  path : String
  isFile : Option Bool

/-- The candidate-file enumeration in `FileSearcher::search_dir`
(src/main.rs lines 164-168): drop walker errors (`filter_map(Result::ok)`),
keep regular files (`map_or(false, ...)`), apply the extension filter. -/
def candidateFiles (s : FileSearcher)
    (walker : List (Except String WalkEntry)) : List WalkEntry :=
  ((walker.filterMap Except.toOption).filter
      (fun e => e.isFile.getD false)).filter
    (fun e => should_search_file s e.path)

/-- The parallel scan loop of `FileSearcher::search_dir` (src/main.rs
lines 172-179), sequentialized in walker order (the real append order is
scheduling-dependent; content is the same): per file, read errors are
dropped (`if let Ok`), non-empty result lists are appended to the shared
accumulator, and a panic in any task propagates out of rayon's
`for_each` and aborts the whole scan (`none`). -/
def collectResults (s : FileSearcher) (fileSys : String → Option Bytes) :
    List WalkEntry → Option (List SearchResult)
  | [] => some []
  | e :: es =>
    match search_file s e.path (fileSys e.path) with
    | .readError => collectResults s fileSys es
    | .panicked => none
    | .ok rs =>
      match collectResults s fileSys es with
      | none => none
      | some rest => some (if rs = [] then rest else rs ++ rest)

/-- `FileSearcher::search_dir` (src/main.rs lines 151-183): enumerate
candidates, scan them, return the accumulated results.  The Rust function
returns `Result<()>` and can only return `Ok(())`; its observable output
is the shared `results` vector, returned here, unless a scan task panics
and the run aborts (`none`). -/
def search_dir (s : FileSearcher) (walker : List (Except String WalkEntry))
    (fileSys : String → Option Bytes) : Option (List SearchResult) :=
  collectResults s fileSys (candidateFiles s walker)

/-- `main` (src/main.rs lines 217-232): construct the searcher (`?`
propagates a pattern error), search the directory, return the results (the
banner and `display_results` printing are presentation).  `some (.error e)`
is the `Err` return of `main` (non-zero exit), `some (.ok rs)` a normal
zero exit, and `none` a panic aborting the process (non-zero exit). -/
def runMain (compile : Bytes → Except String RegexEngine) (args : Args)
    (walker : List (Except String WalkEntry))
    (fileSys : String → Option Bytes) :
    Option (Except String (List SearchResult)) :=
  match fileSearcherNew compile args with
  | .error e => some (.error e)
  | .ok s =>
    match search_dir s walker fileSys with
    | none => none
    | some rs => some (.ok rs)

/-- Process exit status of a run: 0 when `main` returns `Ok`, 1 when it
returns `Err` (as `fn main() -> Result<(), Box<dyn Error>>` behaves), and
101 (Rust's abort status) when a panic aborts the process. -/
def exitCode (r : Option (Except String (List SearchResult))) : Nat :=
  match r with
  | some (.ok _) => 0
  | some (.error _) => 1
  | none => 101

/-- Spec-side description: every position at and after `start` at which
the pattern occurs in the line (overlapping occurrences included). -/
def occFrom (line pat : Bytes) (start : Nat) : List Nat :=
  (List.range' start (line.length + 1 - start)).filter
    (fun i => occursAt line pat i)

/-- Spec-side description (the spec's own wording of the extension of a
file name): the substring after the final dot, with no special treatment
of a leading dot.  To be compared against `rustExtensionChars`. -/
def specExtAfterFinalDot (name : List Char) : Option (List Char) :=
  match lastDotIdx name with
  | none => none
  | some i => some (name.drop (i + 1))

/-- A literal-mode searcher over all files, as built from
`-p <pat> [-i]` with the default extension list `"*"`. -/
def litSearcher (pat : Bytes) (ic : Bool) : FileSearcher :=
  ⟨pat, none, ic, ["*"]⟩

/-- Literal-mode command-line arguments with defaults. -/
def litArgs (pat : Bytes) : Args := ⟨".", pat, "*", false, false⟩

/-- Regex-mode command-line arguments with defaults. -/
def regexArgs (pat : Bytes) : Args := ⟨".", pat, "*", true, false⟩

/-- A regex compiler that rejects every pattern, as `Regex::new` does on
an invalid regular expression. -/
def compileReject : Bytes → Except String RegexEngine :=
  fun _ => .error "regex parse error"

/-! Correctness of the embedded `str::find`: it returns the leftmost
occurrence, and `none` only when there is no occurrence at all. -/

theorem strFind_nil_pat : ∀ s : Bytes, strFind s [] = some 0
  | [] => by simp [strFind]
  | _ :: _ => by simp [strFind]

theorem strFind_some_occ (pat : Bytes) :
    ∀ (s : Bytes) (pos : Nat), strFind s pat = some pos →
      (s.drop pos).take pat.length = pat
  | [], pos => by
    intro h
    simp only [strFind] at h
    split at h
    · rename_i hp
      cases h
      simpa using hp.symm
    · cases h
  | b :: t, pos => by
    intro h
    simp only [strFind] at h
    split at h
    · rename_i hc
      cases h
      simpa using hc
    · rename_i hc
      rw [Option.map_eq_some'] at h
      obtain ⟨q, hq, hq1⟩ := h
      subst hq1
      simpa using strFind_some_occ pat t q hq

theorem strFind_min (pat : Bytes) :
    ∀ (s : Bytes) (pos : Nat), strFind s pat = some pos →
      ∀ q, q < pos → ¬((s.drop q).take pat.length = pat)
  | [], pos => by
    intro h
    simp only [strFind] at h
    split at h
    · cases h; omega
    · cases h
  | b :: t, pos => by
    intro h
    simp only [strFind] at h
    split at h
    · cases h; omega
    · rename_i hc
      rw [Option.map_eq_some'] at h
      obtain ⟨p', hp', rfl⟩ := h
      intro q hq
      cases q with
      | zero => simpa using hc
      | succ r =>
        have := strFind_min pat t p' hp' r (by omega)
        simpa using this

theorem strFind_none (pat : Bytes) :
    ∀ s : Bytes, strFind s pat = none →
      ∀ q, ¬((s.drop q).take pat.length = pat)
  | [], h => by
    simp only [strFind] at h
    split at h
    · cases h
    · rename_i hp
      intro q
      simp only [List.drop_nil, List.take_nil]
      exact fun hh => hp hh.symm
  | b :: t, h => by
    simp only [strFind] at h
    split at h
    · cases h
    · rename_i hc
      rw [Option.map_eq_none'] at h
      intro q
      cases q with
      | zero => simpa using hc
      | succ r => simpa using strFind_none pat t h r

theorem strFind_le (pat : Bytes) :
    ∀ (s : Bytes) (pos : Nat), strFind s pat = some pos → pos ≤ s.length
  | [], pos => by
    intro h
    simp only [strFind] at h
    split at h
    · cases h; simp
    · cases h
  | b :: t, pos => by
    intro h
    simp only [strFind] at h
    split at h
    · cases h; simp
    · rw [Option.map_eq_some'] at h
      obtain ⟨q, hq, rfl⟩ := h
      have := strFind_le pat t q hq
      simp; omega

/-! Facts about `List.range'` and filters over it, used to characterize
the matching loop's output as the list of all occurrence positions. -/

theorem mem_range'_lb : ∀ (n s x : Nat), x ∈ List.range' s n → s ≤ x
  | 0, s, x => by simp
  | n + 1, s, x => by
    rw [List.range'_succ]
    intro h
    rcases List.mem_cons.1 h with h | h
    · omega
    · have := mem_range'_lb n (s + 1) x h
      omega

theorem range'_pairwise_lt : ∀ (n s : Nat), (List.range' s n).Pairwise (· < ·)
  | 0, s => by simp
  | n + 1, s => by
    rw [List.range'_succ]
    exact List.pairwise_cons.2
      ⟨fun x hx => by have := mem_range'_lb n (s + 1) x hx; omega,
       range'_pairwise_lt n (s + 1)⟩

theorem filter_range'_nil (occ : Nat → Bool) :
    ∀ (n s : Nat), (∀ i, s ≤ i → i < s + n → occ i = false) →
      (List.range' s n).filter occ = []
  | 0, s => by simp
  | n + 1, s => by
    intro h
    rw [List.range'_succ, List.filter_cons, h s le_rfl (by omega)]
    simp only [Bool.false_eq_true, if_neg, ite_false]
    exact filter_range'_nil occ n (s + 1) (fun i h1 h2 => h i (by omega) (by omega))

theorem filter_range'_split (occ : Nat → Bool) :
    ∀ (pos s n : Nat), (∀ i, s ≤ i → i < s + pos → occ i = false) →
      occ (s + pos) = true → pos < n →
      (List.range' s n).filter occ =
        (s + pos) :: (List.range' (s + pos + 1) (n - pos - 1)).filter occ
  | 0, s, n => by
    intro _ hocc hn
    obtain ⟨m, rfl⟩ : ∃ m, n = m + 1 := ⟨n - 1, by omega⟩
    rw [List.range'_succ, List.filter_cons]
    simp only [Nat.add_zero] at hocc
    simp [hocc]
  | pos + 1, s, n => by
    intro hno hocc hn
    obtain ⟨m, rfl⟩ : ∃ m, n = m + 1 := ⟨n - 1, by omega⟩
    rw [List.range'_succ, List.filter_cons, hno s le_rfl (by omega)]
    simp only [Bool.false_eq_true, if_neg, ite_false]
    have e1 : s + 1 + pos = s + (pos + 1) := by omega
    have hocc' : occ (s + 1 + pos) = true := by rw [e1]; exact hocc
    have hno' : ∀ i, s + 1 ≤ i → i < s + 1 + pos → occ i = false :=
      fun i h1 h2 => hno i (by omega) (by omega)
    have hrec := filter_range'_split occ pos (s + 1) m hno' hocc' (by omega)
    rw [hrec, e1]
    have e2 : m - pos - 1 = m + 1 - (pos + 1) - 1 := by omega
    rw [e2]

/-- With the empty pattern, the loop always overruns the end of the line:
`find` returns `Some(0)` on every suffix including the empty one, so
`start` is eventually `len + 1` and the slice `search_line[start..]`
panics. -/
theorem findMatchesLoop_nil_pat (line : Bytes) :
    ∀ start, findMatchesLoop line [] start = none := by
  have H : ∀ n start, line.length + 1 - start ≤ n →
      findMatchesLoop line [] start = none := by
    intro n
    induction n with
    | zero =>
      intro start hle
      rw [findMatchesLoop]
      have hg : ¬(isCharBoundary line start = true ∧ start ≤ line.length) := by
        rintro ⟨_, h2⟩; omega
      simp [hg]
    | succ n ih =>
      intro start hle
      rw [findMatchesLoop]
      by_cases hg : isCharBoundary line start = true ∧ start ≤ line.length
      · rw [dif_pos hg, strFind_nil_pat]
        show (match findMatchesLoop line [] (start + 0 + 1) with
          | none => none
          | some rest =>
            some ((start + 0, start + 0 + ([] : Bytes).length) :: rest)) = none
        rw [ih (start + 0 + 1) (by omega)]
      · rw [dif_neg hg]
  intro start
  exact H _ start le_rfl

/-- The matching loop, when it completes, reports exactly the occurrence
positions `≥ start`, in increasing order, each with a span of the
pattern's byte length — overlapping occurrences included, because the
search resumes at `abs_pos + 1`. -/
theorem findMatchesLoop_eq_occFrom (line pat : Bytes) :
    ∀ start spans, findMatchesLoop line pat start = some spans →
      spans = (occFrom line pat start).map (fun p => (p, p + pat.length)) := by
  have H : ∀ n start spans, line.length + 1 - start ≤ n →
      findMatchesLoop line pat start = some spans →
      spans = (occFrom line pat start).map (fun p => (p, p + pat.length)) := by
    intro n
    induction n with
    | zero =>
      intro start spans hle h
      rw [findMatchesLoop] at h
      have hg : ¬(isCharBoundary line start = true ∧ start ≤ line.length) := by
        rintro ⟨_, h2⟩; omega
      rw [dif_neg hg] at h
      cases h
    | succ n ih =>
      intro start spans hle h
      rw [findMatchesLoop] at h
      by_cases hg : isCharBoundary line start = true ∧ start ≤ line.length
      · rw [dif_pos hg] at h
        split at h
        · -- strFind returned none: no occurrence at or after start
          rename_i hf
          cases h
          have hnone := strFind_none pat (line.drop start) hf
          have hempty : occFrom line pat start = [] := by
            apply filter_range'_nil
            intro i h1 h2
            have hni := hnone (i - start)
            rw [List.drop_drop] at hni
            have e : start + (i - start) = i := by omega
            rw [e] at hni
            simpa [occursAt] using hni
          rw [hempty]
          simp
        · -- strFind returned some pos: first occurrence at start + pos
          rename_i pos hf
          split at h
          · cases h
          · rename_i rest hrec
            cases h
            have hposle : pos ≤ line.length - start := by
              have := strFind_le pat (line.drop start) pos hf
              simpa using this
            have hrest := ih (start + pos + 1) rest (by omega) hrec
            have hocc : occursAt line pat (start + pos) = true := by
              have hso := strFind_some_occ pat (line.drop start) pos hf
              rw [List.drop_drop] at hso
              simpa [occursAt] using hso
            have hno : ∀ i, start ≤ i → i < start + pos →
                occursAt line pat i = false := by
              intro i h1 h2
              have hmi := strFind_min pat (line.drop start) pos hf (i - start) (by omega)
              rw [List.drop_drop] at hmi
              have e : start + (i - start) = i := by omega
              rw [e] at hmi
              simpa [occursAt] using hmi
            have hsplit := filter_range'_split (fun i => occursAt line pat i)
              pos start (line.length + 1 - start) hno hocc (by omega)
            simp only [occFrom]
            rw [hsplit]
            have e3 : line.length + 1 - start - pos - 1 =
                line.length + 1 - (start + pos + 1) := by omega
            rw [e3, List.map_cons]
            simp only [occFrom] at hrest
            rw [← hrest]
      · rw [dif_neg hg] at h
        cases h
  intro start spans h
  exact H _ start spans le_rfl h

/-- Occurrence positions are reported in strictly increasing order. -/
theorem occFrom_pairwise_lt (line pat : Bytes) (start : Nat) :
    (occFrom line pat start).Pairwise (· < ·) :=
  (range'_pairwise_lt _ _).filter _

/-- Every `SearchResult` emitted by the per-line scan loop records a line
of the input (at the 0-based position `line_number - 1 - i₀` when scanning
starts at index `i₀`), the given path, and the non-empty span list the
matcher returned for exactly that stored line. -/
theorem searchLinesFrom_mem (s : FileSearcher) (path : String) :
    ∀ (ls : List Bytes) (i : Nat) (rs : List SearchResult),
      searchLinesFrom s path i ls = some rs → ∀ r ∈ rs,
        ∃ j l, ls.get? j = some l ∧ r.line_number = i + j + 1 ∧ r.line = l ∧
          r.file_path = path ∧ lineMatchSpans s l = some r.spans ∧ r.spans ≠ []
  | [], i, rs => by
    intro h r hr
    simp only [searchLinesFrom] at h
    cases h
    simp at hr
  | l :: ls, i, rs => by
    intro h r hr
    simp only [searchLinesFrom] at h
    split at h
    · rename_i ms rest hms hrest
      cases h
      by_cases hemp : ms = []
      · rw [if_pos hemp] at hr
        obtain ⟨j, l', h1, h2, h3, h4, h5, h6⟩ :=
          searchLinesFrom_mem s path ls (i + 1) rest hrest r hr
        exact ⟨j + 1, l', by simpa using h1, by omega, h3, h4, h5, h6⟩
      · rw [if_neg hemp] at hr
        rcases List.mem_cons.1 hr with rfl | hr
        · exact ⟨0, l, by simp, rfl, rfl, rfl, hms, hemp⟩
        · obtain ⟨j, l', h1, h2, h3, h4, h5, h6⟩ :=
            searchLinesFrom_mem s path ls (i + 1) rest hrest r hr
          exact ⟨j + 1, l', by simpa using h1, by omega, h3, h4, h5, h6⟩
    · cases h

/-- A successful file scan is exactly a completed line loop. -/
theorem search_file_ok_iff (s : FileSearcher) (path : String) (c : Bytes)
    (rs : List SearchResult) :
    search_file s path (some c) = .ok rs ↔
      searchLinesFrom s path 0 (rustLines c) = some rs := by
  simp only [search_file]
  split <;> simp_all

/-! Facts about line splitting. -/

theorem splitNl_ne_nil : ∀ s : Bytes, splitNl s ≠ []
  | [] => by simp [splitNl]
  | b :: t => by
    by_cases hb : b = 10
    · simp [splitNl, hb]
    · simp only [splitNl, if_neg hb]
      cases h : splitNl t <;> simp

theorem splitNl_append_newline : ∀ c : Bytes, splitNl (c ++ [10]) = splitNl c ++ [[]]
  | [] => by simp [splitNl]
  | b :: t => by
    have ih := splitNl_append_newline t
    by_cases hb : b = 10
    · show splitNl (b :: (t ++ [10])) = splitNl (b :: t) ++ [[]]
      simp only [splitNl, if_pos hb, ih]
      simp
    · show splitNl (b :: (t ++ [10])) = splitNl (b :: t) ++ [[]]
      simp only [splitNl, if_neg hb, ih]
      cases h : splitNl t with
      | nil => exact absurd h (splitNl_ne_nil t)
      | cons l ls => simp [h]

/-- A final newline does not create an extra line: the lines of
`c ++ "\n"` are exactly the newline-delimited fragments of `c` (each with
a trailing `\r` stripped), with no trailing empty line. -/
theorem rustLines_append_newline (c : Bytes) :
    rustLines (c ++ [10]) = (splitNl c).map stripCr := by
  simp only [rustLines, splitNl_append_newline c]
  rw [List.getLast?_concat, List.dropLast_concat]
  simp

/-! Facts about the directory scan: walker errors and per-file read
errors are dropped without affecting anything else. -/

theorem candidateFiles_cons_error (s : FileSearcher) (msg : String)
    (w : List (Except String WalkEntry)) :
    candidateFiles s (.error msg :: w) = candidateFiles s w := by
  simp [candidateFiles, List.filterMap_cons, Except.toOption]

theorem candidateFiles_cons_ok (s : FileSearcher) (en : WalkEntry)
    (w : List (Except String WalkEntry)) :
    candidateFiles s (.ok en :: w) =
      if en.isFile.getD false && should_search_file s en.path
      then en :: candidateFiles s w else candidateFiles s w := by
  simp only [candidateFiles, List.filterMap_cons, Except.toOption]
  by_cases h1 : en.isFile.getD false
  · by_cases h2 : should_search_file s en.path
    · simp [List.filter_cons, h1, h2]
    · simp [List.filter_cons, h1, h2]
  · simp [List.filter_cons, h1]

/-- Filtering walker entries by any per-file predicate (errors untouched)
commutes with candidate enumeration. -/
theorem candidateFiles_filter (s : FileSearcher) (p : WalkEntry → Bool) :
    ∀ w : List (Except String WalkEntry),
      candidateFiles s (w.filter fun we =>
        match we with
        | .ok en => p en
        | .error _ => true) =
      (candidateFiles s w).filter p
  | [] => by simp [candidateFiles]
  | .error msg :: w => by
    rw [List.filter_cons_of_pos (by rfl)]
    rw [candidateFiles_cons_error, candidateFiles_cons_error]
    exact candidateFiles_filter s p w
  | .ok en :: w => by
    by_cases hp : p en
    · rw [List.filter_cons_of_pos (by simpa using hp),
        candidateFiles_cons_ok, candidateFiles_cons_ok]
      by_cases hc : en.isFile.getD false && should_search_file s en.path
      · rw [if_pos hc, if_pos hc, List.filter_cons_of_pos (by simpa using hp)]
        rw [candidateFiles_filter s p w]
      · rw [if_neg hc, if_neg hc]
        exact candidateFiles_filter s p w
    · rw [List.filter_cons_of_neg (by simpa using hp), candidateFiles_cons_ok]
      by_cases hc : en.isFile.getD false && should_search_file s en.path
      · rw [if_pos hc, List.filter_cons_of_neg (by simpa using hp)]
        exact candidateFiles_filter s p w
      · rw [if_neg hc]
        exact candidateFiles_filter s p w

/-- Dropping the walker's error entries changes nothing: they are already
dropped by `filter_map(Result::ok)`. -/
theorem candidateFiles_drop_errors (s : FileSearcher) :
    ∀ w : List (Except String WalkEntry),
      candidateFiles s (w.filter fun we =>
        match we with
        | .ok _ => true
        | .error _ => false) =
      candidateFiles s w
  | [] => rfl
  | .error msg :: w => by
    rw [List.filter_cons_of_neg (by simp), candidateFiles_cons_error]
    exact candidateFiles_drop_errors s w
  | .ok en :: w => by
    rw [List.filter_cons_of_pos (by rfl), candidateFiles_cons_ok,
      candidateFiles_cons_ok, candidateFiles_drop_errors s w]

/-- Files whose content cannot be read or decoded contribute nothing:
removing them from the scan list leaves the collected outcome — results
and panic status alike — unchanged. -/
theorem collectResults_skip_unreadable (s : FileSearcher)
    (fileSys : String → Option Bytes) :
    ∀ es : List WalkEntry,
      collectResults s fileSys (es.filter fun e => (fileSys e.path).isSome) =
        collectResults s fileSys es
  | [] => rfl
  | e :: es => by
    cases hc : fileSys e.path with
    | none =>
      rw [List.filter_cons, if_neg (by simp [hc])]
      rw [collectResults_skip_unreadable s fileSys es]
      have hre : search_file s e.path (fileSys e.path) = .readError := by
        rw [hc]; rfl
      simp only [collectResults, hre]
    | some c =>
      rw [List.filter_cons, if_pos (by simp [hc])]
      simp only [collectResults]
      rw [collectResults_skip_unreadable s fileSys es]

/-! The claims. -/

/-- C1: In literal mode the search resumes one byte past each found
occurrence (`start = abs_pos + 1`), not past the whole pattern, so a
completed loop reports every occurrence position — overlapping ones
included — each spanning the pattern's byte length; in particular the
pattern `"aa"` against the line `"aaa"` yields exactly two spans, at
start positions 0 and 1. -/
theorem literal_resume_all_occurrences :
    (∀ (line pat : Bytes) (spans : List (Nat × Nat)),
      findLiteralMatches line pat = some spans →
      spans = (occFrom line pat 0).map (fun p => (p, p + pat.length))) ∧
    search_file (litSearcher (asciiBytes "aa") false) "f" (some (asciiBytes "aaa")) =
      .ok [⟨"f", 1, asciiBytes "aaa", [(0, 2), (1, 3)]⟩] := by
  constructor
  · intro line pat spans h
    exact findMatchesLoop_eq_occFrom line pat 0 spans h
  · simp [search_file, searchLinesFrom, lineMatchSpans, findLiteralMatches,
      findMatchesLoop, strFind, isCharBoundary, isUtf8Cont, rustLines, splitNl,
      stripCr, litSearcher, asciiBytes]

/-- Witness for C1 at the concrete input `"aaa"`/`"aa"`. -/
theorem literal_resume_all_occurrences_witness :
    ([(0, 2), (1, 3)] : List (Nat × Nat)) =
      (occFrom (asciiBytes "aaa") (asciiBytes "aa") 0).map
        (fun p => (p, p + (asciiBytes "aa").length)) :=
  literal_resume_all_occurrences.1 (asciiBytes "aaa") (asciiBytes "aa")
    [(0, 2), (1, 3)]
    (by simp [findLiteralMatches, findMatchesLoop, strFind, isCharBoundary,
      isUtf8Cont, asciiBytes])

/-- C2 (amended): every `SearchResult` produced by scanning — literal or
regex mode — has a non-empty span list (the `!matches.is_empty()` guard
is mode-independent).  In literal mode the spans are sorted strictly
ascending by start position but may overlap, because matching resumes one
byte after each match start (see the counterexample).  In regex mode the
spans are exactly one engine answer, so they inherit every pairwise
guarantee — such as sortedness and non-overlap under leftmost
non-overlapping semantics — that the engine provides. -/
theorem scan_spans_invariants :
    (∀ (s : FileSearcher) (path : String) (content : Option Bytes)
        (rs : List SearchResult),
      search_file s path content = .ok rs → ∀ r ∈ rs, r.spans ≠ []) ∧
    (∀ (s : FileSearcher) (path : String) (content : Option Bytes)
        (rs : List SearchResult),
      s.regex = none → search_file s path content = .ok rs →
      ∀ r ∈ rs, r.spans.Pairwise (fun a b => a.1 < b.1)) ∧
    (∀ (s : FileSearcher) (path : String) (content : Option Bytes)
        (rs : List SearchResult) (re : RegexEngine)
        (P : Nat × Nat → Nat × Nat → Prop),
      s.regex = some re → (∀ line, (re line).Pairwise P) →
      search_file s path content = .ok rs →
      ∀ r ∈ rs, r.spans.Pairwise P) := by
  refine ⟨?_, ?_, ?_⟩
  · intro s path content rs h r hr
    cases content with
    | none => simp [search_file] at h
    | some c =>
      rw [search_file_ok_iff] at h
      obtain ⟨j, l, hget, hnum, hline, hpath, hms, hne⟩ :=
        searchLinesFrom_mem s path (rustLines c) 0 rs h r hr
      exact hne
  · intro s path content rs hre h r hr
    cases content with
    | none => simp [search_file] at h
    | some c =>
      rw [search_file_ok_iff] at h
      obtain ⟨j, l, hget, hnum, hline, hpath, hms, hne⟩ :=
        searchLinesFrom_mem s path (rustLines c) 0 rs h r hr
      simp only [lineMatchSpans, hre] at hms
      have hchar := findMatchesLoop_eq_occFrom
        (if s.ignore_case then toLowercase l else l)
        (if s.ignore_case then toLowercase s.pattern else s.pattern) 0 r.spans hms
      rw [hchar]
      have hpw := occFrom_pairwise_lt
        (if s.ignore_case then toLowercase l else l)
        (if s.ignore_case then toLowercase s.pattern else s.pattern) 0
      exact (List.pairwise_map).2 (by simpa using hpw)
  · intro s path content rs re P hre hengine h r hr
    cases content with
    | none => simp [search_file] at h
    | some c =>
      rw [search_file_ok_iff] at h
      obtain ⟨j, l, hget, hnum, hline, hpath, hms, hne⟩ :=
        searchLinesFrom_mem s path (rustLines c) 0 rs h r hr
      simp only [lineMatchSpans, hre, Option.some.injEq] at hms
      rw [← hms]
      exact hengine l

/-- Counterexample to C2 as stated: scanning `"aaa"` for `"aa"` produces
the spans `(0,2)` and `(1,3)`, and these two spans overlap (the second
starts at byte 1, before the first ends at byte 2), contradicting the
claim that spans never overlap. -/
theorem literal_spans_overlap_counterexample :
    search_file (litSearcher (asciiBytes "aa") false) "over"
        (some (asciiBytes "aaa")) =
      .ok [⟨"over", 1, asciiBytes "aaa", [(0, 2), (1, 3)]⟩] ∧
    ¬ ([(0, 2), (1, 3)] : List (Nat × Nat)).Pairwise (fun a b => a.2 ≤ b.1) := by
  constructor
  · simp [search_file, searchLinesFrom, lineMatchSpans, findLiteralMatches,
      findMatchesLoop, strFind, isCharBoundary, isUtf8Cont, rustLines, splitNl,
      stripCr, litSearcher, asciiBytes]
  · decide

/-- Witness for C2 (amended): non-emptiness and literal sortedness at the
concrete input `"aaa"`/`"aa"`, and the regex conjunct with a concrete
engine whose answers are non-overlapping. -/
theorem scan_spans_invariants_witness :
    (([(0, 2), (1, 3)] : List (Nat × Nat)) ≠ [] ∧
     ([(0, 2), (1, 3)] : List (Nat × Nat)).Pairwise (fun a b => a.1 < b.1)) ∧
    ([(0, 1), (2, 3)] : List (Nat × Nat)).Pairwise (fun a b => a.2 ≤ b.1) := by
  refine ⟨⟨?_, ?_⟩, ?_⟩
  · exact scan_spans_invariants.1 (litSearcher (asciiBytes "aa") false) "f"
      (some (asciiBytes "aaa")) [⟨"f", 1, asciiBytes "aaa", [(0, 2), (1, 3)]⟩]
      (by simp [search_file, searchLinesFrom, lineMatchSpans, findLiteralMatches,
        findMatchesLoop, strFind, isCharBoundary, isUtf8Cont, rustLines, splitNl,
        stripCr, litSearcher, asciiBytes])
      ⟨"f", 1, asciiBytes "aaa", [(0, 2), (1, 3)]⟩ (by simp)
  · exact scan_spans_invariants.2.1 (litSearcher (asciiBytes "aa") false) "f"
      (some (asciiBytes "aaa")) [⟨"f", 1, asciiBytes "aaa", [(0, 2), (1, 3)]⟩]
      rfl
      (by simp [search_file, searchLinesFrom, lineMatchSpans, findLiteralMatches,
        findMatchesLoop, strFind, isCharBoundary, isUtf8Cont, rustLines, splitNl,
        stripCr, litSearcher, asciiBytes])
      ⟨"f", 1, asciiBytes "aaa", [(0, 2), (1, 3)]⟩ (by simp)
  · exact scan_spans_invariants.2.2
      ⟨asciiBytes "x", some (fun _ => [(0, 1), (2, 3)]), false, ["*"]⟩ "f"
      (some [97]) [⟨"f", 1, [97], [(0, 1), (2, 3)]⟩]
      (fun _ => [(0, 1), (2, 3)]) (fun a b => a.2 ≤ b.1)
      rfl
      (fun _ => (by decide :
        ([(0, 1), (2, 3)] : List (Nat × Nat)).Pairwise (fun a b => a.2 ≤ b.1)))
      (by simp [search_file, searchLinesFrom, lineMatchSpans, rustLines, splitNl,
        stripCr])
      ⟨"f", 1, [97], [(0, 1), (2, 3)]⟩ (by simp)

/-- C7: in case-insensitive literal mode both the line and the pattern
are lowercased before the substring search, and the line
`"Hello, HELLO, hello"` scanned for `"hello"` case-insensitively yields
exactly one `SearchResult` with exactly three spans, at the three
occurrence start positions 0, 7 and 14. -/
theorem case_insensitive_lowercases_both :
    (∀ (s : FileSearcher) (line : Bytes), s.regex = none →
      s.ignore_case = true →
      lineMatchSpans s line =
        findLiteralMatches (toLowercase line) (toLowercase s.pattern)) ∧
    search_file (litSearcher (asciiBytes "hello") true) "t.txt"
        (some (asciiBytes "Hello, HELLO, hello")) =
      .ok [⟨"t.txt", 1, asciiBytes "Hello, HELLO, hello",
        [(0, 5), (7, 12), (14, 19)]⟩] := by
  constructor
  · intro s line h1 h2
    simp [lineMatchSpans, h1, h2]
  · simp [search_file, searchLinesFrom, lineMatchSpans, findLiteralMatches,
      findMatchesLoop, strFind, isCharBoundary, isUtf8Cont, rustLines, splitNl,
      stripCr, litSearcher, asciiBytes, toLowercase]

/-- Witness for C7 at a concrete searcher and line. -/
theorem case_insensitive_lowercases_both_witness :
    lineMatchSpans (litSearcher (asciiBytes "hello") true) (asciiBytes "Hello") =
      findLiteralMatches (toLowercase (asciiBytes "Hello"))
        (toLowercase (litSearcher (asciiBytes "hello") true).pattern) :=
  case_insensitive_lowercases_both.1 (litSearcher (asciiBytes "hello") true)
    (asciiBytes "Hello") rfl rfl

/-- C8: lines are the newline-delimited fragments of the content with no
extra empty line after a final newline; each emitted `SearchResult` is
numbered from 1 and stores, at position `line_number - 1` of those lines,
exactly the original (never lowercased) line text. -/
theorem line_split_and_numbering :
    (∀ c : Bytes, rustLines (c ++ [10]) = (splitNl c).map stripCr) ∧
    (∀ (s : FileSearcher) (path : String) (c : Bytes) (rs : List SearchResult),
      search_file s path (some c) = .ok rs → ∀ r ∈ rs,
        1 ≤ r.line_number ∧
        (rustLines c).get? (r.line_number - 1) = some r.line) := by
  constructor
  · exact rustLines_append_newline
  · intro s path c rs h r hr
    rw [search_file_ok_iff] at h
    obtain ⟨j, l, hget, hnum, hline, _, _, _⟩ :=
      searchLinesFrom_mem s path (rustLines c) 0 rs h r hr
    constructor
    · omega
    · have hj : r.line_number - 1 = j := by omega
      rw [hj, hline]
      exact hget

/-- Witness for C8: scanning the two-line content `"a\nxa\n"` for `"a"`,
the second result is numbered 2 and stores the second line `"xa"`. -/
theorem line_split_and_numbering_witness :
    1 ≤ 2 ∧ (rustLines [97, 10, 120, 97, 10]).get? (2 - 1) = some [120, 97] := by
  have happ := line_split_and_numbering.2 (litSearcher (asciiBytes "a") false)
    "w" [97, 10, 120, 97, 10]
    [⟨"w", 1, [97], [(0, 1)]⟩, ⟨"w", 2, [120, 97], [(1, 2)]⟩]
    (by simp [search_file, searchLinesFrom, lineMatchSpans, findLiteralMatches,
      findMatchesLoop, strFind, isCharBoundary, isUtf8Cont, rustLines, splitNl,
      stripCr, litSearcher, asciiBytes])
    ⟨"w", 2, [120, 97], [(1, 2)]⟩ (by simp)
  exact happ

/-- C9 (refuted): the literal matching loop does not return on every
input: slicing `search_line[start..]` panics — with the empty pattern the
resume position runs one byte past the end of the line, and after a match
ending inside a multi-byte character the resume position `abs_pos + 1` is
not a character boundary.  Pattern `"α"` (bytes `CE B1`) on the line
`"α"` panics after its first match, and the empty pattern panics on the
line `"a"`; the whole file scan fails. -/
theorem literal_loop_panics_on_empty_or_multibyte :
    findLiteralMatches [206, 177] [206, 177] = none ∧
    findLiteralMatches [97] [] = none ∧
    search_file (litSearcher [206, 177] false) "f" (some [206, 177]) =
      .panicked := by
  refine ⟨?_, ?_, ?_⟩ <;>
    simp [search_file, searchLinesFrom, lineMatchSpans, findLiteralMatches,
      findMatchesLoop, strFind, isCharBoundary, isUtf8Cont, rustLines, splitNl,
      stripCr, litSearcher]

/-- C10 (refuted): in case-insensitive mode span offsets are measured on
the lowercased line but the original line is stored, and lowercasing can
change the byte length: for the line `"İa"` (bytes `C4 B0 61`; `"İ"`
lowercases to the three bytes `69 CC 87`) and pattern `"a"`, the emitted
`SearchResult` stores the 3-byte original line with the span `(3, 4)`
whose end exceeds the line's length — the highlighting
`line.insert_str(4, ...)` in `display_results` would panic. -/
theorem ignore_case_span_exceeds_line :
    search_file (litSearcher [97] true) "f" (some [196, 176, 97]) =
      .ok [⟨"f", 1, [196, 176, 97], [(3, 4)]⟩] ∧
    ([196, 176, 97] : Bytes).length < 4 := by
  constructor
  · simp [search_file, searchLinesFrom, lineMatchSpans, findLiteralMatches,
      findMatchesLoop, strFind, isCharBoundary, isUtf8Cont, rustLines, splitNl,
      stripCr, litSearcher, toLowercase]
  · decide

/-- C4: in regex mode an invalid pattern makes construction fail with the
compiler's error before anything else happens: the run returns exactly
that error (non-zero exit), and its outcome does not depend on the walker
or the file system at all — no file is ever scanned. -/
theorem invalid_regex_fail_fast :
    ∀ (compile : Bytes → Except String RegexEngine) (args : Args) (e : String)
      (walker walker' : List (Except String WalkEntry))
      (fileSys fileSys' : String → Option Bytes),
      args.regex = true → compile args.pattern = .error e →
      runMain compile args walker fileSys = some (.error e) ∧
      runMain compile args walker fileSys = runMain compile args walker' fileSys' ∧
      exitCode (runMain compile args walker fileSys) ≠ 0 := by
  intro compile args e w w' f f' hr hc
  have hnew : fileSearcherNew compile args = .error e := by
    simp [fileSearcherNew, hr, hc]
  refine ⟨?_, ?_, ?_⟩ <;> simp [runMain, hnew, exitCode]

/-- Witness for C4 with a rejecting compiler and pattern `"("`. -/
theorem invalid_regex_fail_fast_witness :
    runMain compileReject (regexArgs (asciiBytes "(")) [] (fun _ => none) =
      some (.error "regex parse error") ∧
    runMain compileReject (regexArgs (asciiBytes "(")) [] (fun _ => none) =
      runMain compileReject (regexArgs (asciiBytes "("))
        [.ok ⟨"a.txt", some true⟩] (fun _ => some (asciiBytes "x")) ∧
    exitCode (runMain compileReject (regexArgs (asciiBytes "(")) []
      (fun _ => none)) ≠ 0 :=
  invalid_regex_fail_fast compileReject (regexArgs (asciiBytes "("))
    "regex parse error" [] [.ok ⟨"a.txt", some true⟩]
    (fun _ => none) (fun _ => some (asciiBytes "x")) rfl rfl

/-- C3: files whose content cannot be read or decoded are silently
excluded: the scan's outcome — results and panic status alike — equals
the one obtained with the undecodable files removed from the walk, so a
read error never escalates; and whenever the remaining scan completes
(no task panics), `main` returns `Ok` and the process exits zero. -/
theorem file_read_errors_isolated :
    ∀ (s : FileSearcher) (walker : List (Except String WalkEntry))
      (fileSys : String → Option Bytes)
      (compile : Bytes → Except String RegexEngine) (args : Args)
      (rs : List SearchResult),
      fileSearcherNew compile args = .ok s →
      search_dir s walker fileSys =
        search_dir s (walker.filter fun we =>
          match we with
          | .ok en => (fileSys en.path).isSome
          | .error _ => true) fileSys ∧
      (search_dir s walker fileSys = some rs →
        runMain compile args walker fileSys = some (.ok rs) ∧
        exitCode (runMain compile args walker fileSys) = 0) := by
  intro s walker fsys compile args rs hok
  have hdir : search_dir s (walker.filter fun we =>
      match we with
      | .ok en => (fsys en.path).isSome
      | .error _ => true) fsys = search_dir s walker fsys := by
    unfold search_dir
    rw [candidateFiles_filter s (fun en => (fsys en.path).isSome) walker]
    exact collectResults_skip_unreadable s fsys (candidateFiles s walker)
  refine ⟨hdir.symm, fun hsd => ?_⟩
  constructor <;> simp [runMain, hok, hsd, exitCode]

/-- Witness for C3: two candidate files of which `"b.txt"` is
undecodable; the run is equivalent to one over `"a.txt"` alone, completes
without panic, and exits zero. -/
theorem file_read_errors_isolated_witness :
    search_dir (litSearcher (asciiBytes "a") false)
        [.ok ⟨"a.txt", some true⟩, .ok ⟨"b.txt", some true⟩]
        (fun p => if p = "a.txt" then some [97] else none) =
      search_dir (litSearcher (asciiBytes "a") false)
        ([.ok ⟨"a.txt", some true⟩, .ok ⟨"b.txt", some true⟩].filter fun we =>
          match we with
          | .ok en =>
            ((fun p => if p = "a.txt" then some [97] else none) en.path).isSome
          | .error _ => true)
        (fun p => if p = "a.txt" then some [97] else none) ∧
    runMain compileReject (litArgs (asciiBytes "a"))
        [.ok ⟨"a.txt", some true⟩, .ok ⟨"b.txt", some true⟩]
        (fun p => if p = "a.txt" then some [97] else none) =
      some (.ok [⟨"a.txt", 1, [97], [(0, 1)]⟩]) ∧
    exitCode (runMain compileReject (litArgs (asciiBytes "a"))
        [.ok ⟨"a.txt", some true⟩, .ok ⟨"b.txt", some true⟩]
        (fun p => if p = "a.txt" then some [97] else none)) = 0 := by
  have hsd : search_dir (litSearcher (asciiBytes "a") false)
      [.ok ⟨"a.txt", some true⟩, .ok ⟨"b.txt", some true⟩]
      (fun p => if p = "a.txt" then some [97] else none) =
      some [⟨"a.txt", 1, [97], [(0, 1)]⟩] := by
    simp [search_dir, candidateFiles, collectResults, search_file,
      searchLinesFrom, lineMatchSpans, findLiteralMatches, findMatchesLoop,
      strFind, isCharBoundary, isUtf8Cont, rustLines, splitNl, stripCr,
      litSearcher, asciiBytes, should_search_file]
  have H := file_read_errors_isolated (litSearcher (asciiBytes "a") false)
    [.ok ⟨"a.txt", some true⟩, .ok ⟨"b.txt", some true⟩]
    (fun p => if p = "a.txt" then some [97] else none)
    compileReject (litArgs (asciiBytes "a")) [⟨"a.txt", 1, [97], [(0, 1)]⟩] rfl
  exact ⟨H.1, (H.2 hsd).1, (H.2 hsd).2⟩

/-- Counterexample to C5 as stated: when the target root cannot be
traversed, the walker yields only an error entry; the run drops it,
returns an empty result set and exits with status zero — not the non-zero
fatal exit the claim requires. -/
theorem unreadable_root_exits_zero_counterexample :
    runMain compileReject (litArgs (asciiBytes "hello"))
        [.error "IO error: cannot open directory"] (fun _ => none) =
      some (.ok []) ∧
    exitCode (runMain compileReject (litArgs (asciiBytes "hello"))
        [.error "IO error: cannot open directory"] (fun _ => none)) = 0 := by
  constructor <;> rfl

/-- C5 (amended): walker errors — including the error entry produced when
the root directory cannot be opened — are silently dropped, leaving the
scan's outcome unchanged; and whenever the scan completes (no task
panics) the process exits zero, even when zero matches are found. -/
theorem walker_errors_dropped_exit_zero :
    ∀ (s : FileSearcher) (walker : List (Except String WalkEntry))
      (fileSys : String → Option Bytes)
      (compile : Bytes → Except String RegexEngine) (args : Args)
      (rs : List SearchResult),
      fileSearcherNew compile args = .ok s →
      search_dir s walker fileSys =
        search_dir s (walker.filter fun we =>
          match we with
          | .ok _ => true
          | .error _ => false) fileSys ∧
      (search_dir s walker fileSys = some rs →
        exitCode (runMain compile args walker fileSys) = 0) := by
  intro s walker fsys compile args rs hok
  constructor
  · unfold search_dir
    rw [candidateFiles_drop_errors s walker]
  · intro hsd
    simp [runMain, hok, hsd, exitCode]

/-- Witness for C5 (amended) on a walker holding only a root error: the
empty scan completes with zero matches and the process exits zero. -/
theorem walker_errors_dropped_exit_zero_witness :
    search_dir (litSearcher (asciiBytes "a") false)
        [.error "IO error: cannot open directory"] (fun _ => none) =
      search_dir (litSearcher (asciiBytes "a") false)
        ([.error "IO error: cannot open directory"].filter fun we =>
          match we with
          | .ok _ => true
          | .error _ => false) (fun _ => none) ∧
    exitCode (runMain compileReject (litArgs (asciiBytes "a"))
        [.error "IO error: cannot open directory"] (fun _ => none)) = 0 := by
  have H := walker_errors_dropped_exit_zero (litSearcher (asciiBytes "a") false)
    [.error "IO error: cannot open directory"] (fun _ => none)
    compileReject (litArgs (asciiBytes "a")) [] rfl
  exact ⟨H.1, H.2 (by rfl)⟩

/-- Counterexample to C6 as stated: the claim defines the extension as
the substring after the final dot of the file name, so `".gitignore"`
would have extension `"gitignore"` and be included under the filter set
`{"gitignore"}`; the code uses `Path::extension`, which gives a file name
starting with its only dot no extension at all, and excludes the file. -/
theorem dotfile_extension_counterexample :
    should_search_file ⟨asciiBytes "x", none, false, ["gitignore"]⟩
      ".gitignore" = false ∧
    specExtAfterFinalDot ".gitignore".data = some "gitignore".data ∧
    "gitignore" ∈
      (⟨asciiBytes "x", none, false, ["gitignore"]⟩ : FileSearcher).extensions := by
  refine ⟨by decide, by decide, by decide⟩

/-- C6 (amended): the filter accepts every path when `"*"` is among the
configured extensions; otherwise it accepts a path iff the path's
extension is in the configured set, where the extension is the substring
after the final dot of the file name except that a dot leading the file
name does not begin an extension (for file names not starting with a dot
this is exactly the substring after the final dot); paths without an
extension are always rejected, so `"a.md"` is rejected and `"a.txt"`
accepted under the set `{"txt"}`. -/
theorem extension_filter_characterized :
    (∀ (s : FileSearcher) (path : String), "*" ∈ s.extensions →
      should_search_file s path = true) ∧
    (∀ (s : FileSearcher) (path : String), "*" ∉ s.extensions →
      (should_search_file s path = true ↔
        ∃ ext, rustExtension path = some ext ∧ ext ∈ s.extensions)) ∧
    (∀ (s : FileSearcher) (path : String), "*" ∉ s.extensions →
      rustExtension path = none → should_search_file s path = false) ∧
    (∀ (c : Char) (cs : List Char), c ≠ '.' →
      rustExtensionChars (c :: cs) = specExtAfterFinalDot (c :: cs)) ∧
    (should_search_file ⟨[], none, false, ["txt"]⟩ "a.md" = false ∧
     should_search_file ⟨[], none, false, ["txt"]⟩ "a.txt" = true) := by
  refine ⟨?_, ?_, ?_, ?_, by decide, by decide⟩
  · intro s p h
    have hc : s.extensions.contains "*" = true := by simpa using h
    simp [should_search_file, hc]
    exact Or.inl h
  · intro s p h
    have hc : s.extensions.contains "*" = false := by simpa using h
    cases hre : rustExtension p with
    | none =>
      simp [should_search_file, hc, hre]
      exact h
    | some ext =>
      simp [should_search_file, hc, hre]
      intro hx
      exact absurd hx h
  · intro s p h hre
    have hc : s.extensions.contains "*" = false := by simpa using h
    simp [should_search_file, hc, hre]
    exact h
  · intro c cs hne
    have hnn : (c :: cs) ≠ ['.', '.'] := by
      intro hh
      cases hh
      exact hne rfl
    simp only [rustExtensionChars, if_neg hnn]
    cases hld : lastDotIdx cs with
    | none => simp [specExtAfterFinalDot, lastDotIdx, hld, hne]
    | some i => simp [specExtAfterFinalDot, lastDotIdx, hld]

/-- Witness for C6 (amended) at the filter set `{"txt"}` and path
`"a.txt"`. -/
theorem extension_filter_characterized_witness :
    should_search_file ⟨[], none, false, ["txt"]⟩ "a.txt" = true ↔
      ∃ ext, rustExtension "a.txt" = some ext ∧
        ext ∈ (⟨[], none, false, ["txt"]⟩ : FileSearcher).extensions :=
  extension_filter_characterized.2.1 ⟨[], none, false, ["txt"]⟩ "a.txt"
    (by decide)

end RustyScout
